import Mathlib

/-!
Shallow embedding of the amortization engine `calculate_amortization`
from `app.py` of the `loan_calculator` repository.

Numbers are modelled as exact rationals (`ℚ`).  Python's built-in
`round(x, 2)` is modelled as rounding to the nearest multiple of `1/100`
with ties going to the even multiple (round-half-to-even, the documented
convention of Python's `round`); binary floating point representation
error is abstracted away.

The engine itself (`runAux` / `calculate_amortization`) is a direct
transcription of the Python loop body: the double loop
`for year in range(1, max_years + 1): for month in range(1, 13)` is
flattened into the list `yearList max_years` of the successive `year`
values (the `month` counter is not used by the loop body).
-/

section LoanCalculator

-- The Batteries implementations of rational arithmetic are marked
-- irreducible, which blocks kernel evaluation by `decide` on concrete
-- inputs; restore the default reducibility locally.
attribute [local semireducible] Rat.add Rat.mul Rat.sub Rat.inv Rat.ofScientific

/-- Round a rational to the nearest integer, ties to even
(the convention of Python's built-in `round`). -/
def rhe (x : ℚ) : ℤ :=
  if x - ⌊x⌋ < 1/2 then ⌊x⌋
  else if 1/2 < x - ⌊x⌋ then ⌊x⌋ + 1
  else if ⌊x⌋ % 2 = 0 then ⌊x⌋ else ⌊x⌋ + 1

/-- Python's `round(x, 2)`: round to the nearest multiple of `1/100`,
ties to even. -/
def round2 (x : ℚ) : ℚ := (rhe (100 * x) : ℚ) / 100

/-- One row of the schedule, as appended by the Python loop body
(field order matches the dict literal in `app.py`): Month, Year,
Payment, Interest, Principal, Remaining_Balance, Total_Interest,
Total_Principal. -/
structure PaymentRecord where
  month : ℕ
  year : ℕ
  payment : ℚ
  interest : ℚ
  principal : ℚ
  remainingBalance : ℚ
  totalInterest : ℚ
  totalPrincipal : ℚ
  deriving Repr, DecidableEq

/-- The quadruple returned by `calculate_amortization`:
`schedule, total_interest_paid, total_principal_paid, month_num`. -/
structure ScheduleResult where
  schedule : List PaymentRecord
  totalInterest : ℚ
  totalPrincipal : ℚ
  monthNum : ℕ
  deriving Repr, DecidableEq

/-- The successive values taken by the `year` variable of the double loop
`for year in range(1, max_years + 1): for month in range(1, 13)`:
twelve copies of each year `1 .. max_years`, in order. -/
def yearList : ℕ → List ℕ
  | 0 => []
  | n + 1 => yearList n ++ List.replicate 12 (n + 1)

/-- The loop of `calculate_amortization`, one list element per remaining
period.  State threaded exactly as the Python locals `schedule`,
`remaining_principal`, `total_interest_paid`, `total_principal_paid`,
`month_num`. -/
def runAux (rate mp : ℚ) : List ℕ → List PaymentRecord → ℚ → ℚ → ℚ → ℕ → ScheduleResult
  | [], sched, _rem, ti, tp, mn => ⟨sched, ti, tp, mn⟩
  | y :: rest, sched, rem, ti, tp, mn =>
      let month_num := mn + 1
      let interest_payment := round2 (rem * rate)
      let principal_payment0 := round2 (mp - interest_payment)
      let principal_payment := if principal_payment0 > rem then rem else principal_payment0
      let actual_payment := if principal_payment0 > rem then interest_payment + rem else mp
      let total_interest := ti + interest_payment
      let total_principal := tp + principal_payment
      let remaining := rem - principal_payment
      let r : PaymentRecord :=
        ⟨month_num, y, actual_payment, interest_payment, principal_payment,
          round2 remaining, round2 total_interest, round2 total_principal⟩
      if remaining ≤ 0 then ⟨sched ++ [r], total_interest, total_principal, month_num⟩
      else runAux rate mp rest (sched ++ [r]) remaining total_interest total_principal month_num

/-- `calculate_amortization(principal, monthly_rate, monthly_payment, max_years)`
from `app.py`.  `max_years ≤ 0` (an empty `range`) yields the empty run. -/
def calculate_amortization (principal rate mp : ℚ) (maxYears : ℕ) : ScheduleResult :=
  runAux rate mp (yearList maxYears) [] principal 0 0 0

example :
    (calculate_amortization 1000 0 100 1).schedule.length = 10 ∧
    (calculate_amortization 1000 0 100 1).monthNum = 10 ∧
    (calculate_amortization 1000 0 100 1).totalPrincipal = 1000 := by decide

/-! ### Reference sequences

Closed forms for the per-period quantities of the loop, used to state
and prove properties of `calculate_amortization`. -/

/-- The principal portion charged by one loop iteration when the balance
at its start is `rem` (the value of `principal_payment` after the clamp
of lines 51-52 of `app.py`). -/
def stepPrincipal (rate mp rem : ℚ) : ℚ :=
  let interest_payment := round2 (rem * rate)
  let principal_payment0 := round2 (mp - interest_payment)
  if principal_payment0 > rem then rem else principal_payment0

/-- The cash paid by one loop iteration when the balance at its start is
`rem` (the value of `actual_payment`, lines 53-55 of `app.py`). -/
def stepPayment (rate mp rem : ℚ) : ℚ :=
  let interest_payment := round2 (rem * rate)
  let principal_payment0 := round2 (mp - interest_payment)
  if principal_payment0 > rem then interest_payment + rem else mp

/-- The exact (unrounded) value of `remaining_principal` after `n` loop
iterations, were the loop never to terminate early. -/
def remAfter (p rate mp : ℚ) : ℕ → ℚ
  | 0 => p
  | n + 1 => remAfter p rate mp n - stepPrincipal rate mp (remAfter p rate mp n)

/-- The `interest_payment` of period `i+1` (0-indexed `i`). -/
def periodInterest (p rate mp : ℚ) (i : ℕ) : ℚ :=
  round2 (remAfter p rate mp i * rate)

/-- The (possibly clamped) `principal_payment` of period `i+1`. -/
def periodPrincipal (p rate mp : ℚ) (i : ℕ) : ℚ :=
  stepPrincipal rate mp (remAfter p rate mp i)

/-- The `actual_payment` of period `i+1`. -/
def periodPayment (p rate mp : ℚ) (i : ℕ) : ℚ :=
  stepPayment rate mp (remAfter p rate mp i)

/-- Exact running total of the rounded per-period interest amounts. -/
def Isum (p rate mp : ℚ) (n : ℕ) : ℚ :=
  ((List.range n).map (periodInterest p rate mp)).sum

/-- Exact running total of the per-period principal amounts. -/
def Psum (p rate mp : ℚ) (n : ℕ) : ℚ :=
  ((List.range n).map (periodPrincipal p rate mp)).sum

/-- What the loop body stores in the record of period `i+1`. -/
def recordSpec (p rate mp : ℚ) (i : ℕ) (r : PaymentRecord) : Prop :=
  r.month = i + 1 ∧
  r.interest = periodInterest p rate mp i ∧
  r.principal = periodPrincipal p rate mp i ∧
  r.payment = periodPayment p rate mp i ∧
  r.remainingBalance = round2 (remAfter p rate mp (i + 1)) ∧
  r.totalInterest = round2 (Isum p rate mp (i + 1)) ∧
  r.totalPrincipal = round2 (Psum p rate mp (i + 1))

/-! ### Rounding lemmas -/

theorem rhe_eq_floor_or (x : ℚ) : rhe x = ⌊x⌋ ∨ rhe x = ⌊x⌋ + 1 := by
  unfold rhe
  split_ifs <;> simp

theorem abs_rhe_sub (x : ℚ) : |(rhe x : ℚ) - x| ≤ 1/2 := by
  have h0 : (⌊x⌋ : ℚ) ≤ x := Int.floor_le x
  have h1 : x < (⌊x⌋ : ℚ) + 1 := Int.lt_floor_add_one x
  unfold rhe
  split_ifs with hlt hgt heven <;>
    · rw [abs_le]
      push_cast
      constructor <;> linarith

theorem rhe_mono {x y : ℚ} (h : x ≤ y) : rhe x ≤ rhe y := by
  rcases lt_or_eq_of_le (Int.floor_le_floor h) with hf | hf
  · rcases rhe_eq_floor_or x with hx | hx <;> rcases rhe_eq_floor_or y with hy | hy <;>
      omega
  · unfold rhe
    rw [← hf]
    split_ifs <;> first | omega | (exfalso; linarith)

theorem rhe_zero : rhe 0 = 0 := by decide

theorem round2_mono {x y : ℚ} (h : x ≤ y) : round2 x ≤ round2 y := by
  unfold round2
  have := rhe_mono (by linarith : 100 * x ≤ 100 * y)
  have h2 : ((rhe (100 * x) : ℤ) : ℚ) ≤ ((rhe (100 * y) : ℤ) : ℚ) := by exact_mod_cast this
  linarith

theorem round2_zero : round2 0 = 0 := by decide

theorem round2_nonneg {x : ℚ} (h : 0 ≤ x) : 0 ≤ round2 x := by
  have := round2_mono h
  rwa [round2_zero] at this

theorem abs_round2_sub (x : ℚ) : |round2 x - x| ≤ 1/200 := by
  have h := abs_rhe_sub (100 * x)
  unfold round2
  rw [abs_le] at h ⊢
  constructor <;> · obtain ⟨h1, h2⟩ := h; linarith

theorem round2_le (x : ℚ) : round2 x ≤ x + 1/200 := by
  have := abs_round2_sub x
  rw [abs_le] at this
  linarith [this.2]

theorem round2_ge (x : ℚ) : x - 1/200 ≤ round2 x := by
  have := abs_round2_sub x
  rw [abs_le] at this
  linarith [this.1]

theorem round2_nonpos {x : ℚ} (h : x < 1/200) : round2 x ≤ 0 := by
  have h1 : (rhe (100 * x) : ℚ) ≤ 100 * x + 1/2 := by
    have := abs_rhe_sub (100 * x)
    rw [abs_le] at this
    linarith [this.2]
  have h2 : (rhe (100 * x) : ℚ) < 1 := by linarith
  have h3 : rhe (100 * x) ≤ 0 := by exact_mod_cast Int.lt_add_one_iff.mp (by exact_mod_cast h2)
  unfold round2
  have h4 : (rhe (100 * x) : ℚ) ≤ 0 := by exact_mod_cast h3
  linarith

/-! ### Elementary facts about the reference sequences -/

theorem remAfter_succ (p rate mp : ℚ) (n : ℕ) :
    remAfter p rate mp (n + 1) =
      remAfter p rate mp n - stepPrincipal rate mp (remAfter p rate mp n) := rfl

theorem Isum_succ (p rate mp : ℚ) (n : ℕ) :
    Isum p rate mp (n + 1) = Isum p rate mp n + periodInterest p rate mp n := by
  unfold Isum
  rw [List.range_succ, List.map_append, List.sum_append]
  simp

theorem Psum_succ (p rate mp : ℚ) (n : ℕ) :
    Psum p rate mp (n + 1) = Psum p rate mp n + periodPrincipal p rate mp n := by
  unfold Psum
  rw [List.range_succ, List.map_append, List.sum_append]
  simp

/-- The telescoping identity: total principal paid over the first `n`
periods equals the drop in the exact remaining balance. -/
theorem Psum_eq_sub_remAfter (p rate mp : ℚ) (n : ℕ) :
    Psum p rate mp n = p - remAfter p rate mp n := by
  induction n with
  | zero => simp [Psum, remAfter]
  | succ k ih =>
      rw [Psum_succ, ih, remAfter_succ]
      unfold periodPrincipal
      ring

theorem yearList_length (y : ℕ) : (yearList y).length = 12 * y := by
  induction y with
  | zero => rfl
  | succ k ih => simp [yearList, ih]; ring

/-! ### The loop invariant -/

/-- The record appended by the loop iteration of period `mn + 1`,
expressed through the reference sequences. -/
def mkRecord (p rate mp : ℚ) (y mn : ℕ) : PaymentRecord :=
  ⟨mn + 1, y, periodPayment p rate mp mn, periodInterest p rate mp mn,
    periodPrincipal p rate mp mn, round2 (remAfter p rate mp (mn + 1)),
    round2 (Isum p rate mp (mn + 1)), round2 (Psum p rate mp (mn + 1))⟩

theorem mkRecord_spec (p rate mp : ℚ) (y mn : ℕ) :
    recordSpec p rate mp mn (mkRecord p rate mp y mn) :=
  ⟨rfl, rfl, rfl, rfl, rfl, rfl, rfl⟩

theorem runAux_cons_eq (p rate mp : ℚ) (y : ℕ) (rest : List ℕ)
    (sched : List PaymentRecord) (mn : ℕ) :
    runAux rate mp (y :: rest) sched (remAfter p rate mp mn)
        (Isum p rate mp mn) (Psum p rate mp mn) mn =
      if remAfter p rate mp (mn + 1) ≤ 0 then
        ⟨sched ++ [mkRecord p rate mp y mn], Isum p rate mp (mn + 1),
          Psum p rate mp (mn + 1), mn + 1⟩
      else
        runAux rate mp rest (sched ++ [mkRecord p rate mp y mn])
          (remAfter p rate mp (mn + 1)) (Isum p rate mp (mn + 1))
          (Psum p rate mp (mn + 1)) (mn + 1) := by
  simp only [runAux, mkRecord, periodPayment, periodInterest, periodPrincipal,
    stepPayment, stepPrincipal, remAfter_succ, Isum_succ, Psum_succ]

/-- Everything the loop guarantees about its result, relative to the
period count `mn` already completed on entry. -/
def MasterOut (p rate mp : ℚ) (mn : ℕ) (ys : List ℕ) (out : ScheduleResult) : Prop :=
  out.schedule.length = out.monthNum ∧
  mn ≤ out.monthNum ∧
  out.monthNum ≤ mn + ys.length ∧
  (ys ≠ [] → mn < out.monthNum) ∧
  (∀ i (hi : i < out.schedule.length), recordSpec p rate mp i out.schedule[i]) ∧
  out.totalInterest = Isum p rate mp out.monthNum ∧
  out.totalPrincipal = Psum p rate mp out.monthNum ∧
  (∀ k, 0 < k → k < out.monthNum → 0 < remAfter p rate mp k) ∧
  (remAfter p rate mp out.monthNum ≤ 0 ∨ out.monthNum = mn + ys.length)

theorem runAux_master (p rate mp : ℚ) (ys : List ℕ) :
    ∀ (mn : ℕ) (sched : List PaymentRecord),
      sched.length = mn →
      (∀ i (hi : i < sched.length), recordSpec p rate mp i sched[i]) →
      (∀ k, 0 < k → k ≤ mn → 0 < remAfter p rate mp k) →
      MasterOut p rate mp mn ys
        (runAux rate mp ys sched (remAfter p rate mp mn)
          (Isum p rate mp mn) (Psum p rate mp mn) mn) := by
  induction ys with
  | nil =>
      intro mn sched hlen hspec hpos
      simp only [runAux]
      exact ⟨hlen, le_refl mn, by simp, by simp, hspec, rfl, rfl,
        fun k hk hk2 => hpos k hk (Nat.le_of_lt hk2), Or.inr (by simp)⟩
  | cons y rest ih =>
      intro mn sched hlen hspec hpos
      rw [runAux_cons_eq]
      have hspec2 : ∀ i (hi : i < (sched ++ [mkRecord p rate mp y mn]).length),
          recordSpec p rate mp i (sched ++ [mkRecord p rate mp y mn])[i] := by
        intro i hi
        rcases Nat.lt_or_ge i sched.length with hlt | hge
        · rw [List.getElem_append_left hlt]
          exact hspec i hlt
        · have hieq : i = mn := by
            have h2 := hi
            rw [List.length_append, List.length_singleton] at h2
            omega
          rw [List.getElem_append_right hge, List.getElem_singleton, hieq]
          exact mkRecord_spec p rate mp y mn
      by_cases hstop : remAfter p rate mp (mn + 1) ≤ 0
      · rw [if_pos hstop]
        refine ⟨by simp [hlen], Nat.le_succ mn, ?_,
          fun _ => Nat.lt_succ_self mn, hspec2, rfl, rfl, ?_, Or.inl hstop⟩
        · show mn + 1 ≤ mn + (y :: rest).length
          simp only [List.length_cons]
          omega
        · intro k hk hk2
          have hk2a : k < mn + 1 := hk2
          exact hpos k hk (by omega)
      · rw [if_neg hstop]
        have hpos2 : ∀ k, 0 < k → k ≤ mn + 1 → 0 < remAfter p rate mp k := by
          intro k hk hk2
          rcases Nat.lt_or_ge k (mn + 1) with hlt | hge
          · exact hpos k hk (by omega)
          · have hkeq : k = mn + 1 := by omega
            rw [hkeq]
            exact not_le.mp hstop
        have hm := ih (mn + 1) (sched ++ [mkRecord p rate mp y mn])
          (by simp [hlen]) hspec2 hpos2
        obtain ⟨m1, m2, m3, m4, m5, m6, m7, m8, m9⟩ := hm
        refine ⟨m1, by omega, ?_, fun _ => by omega, m5, m6, m7, m8, ?_⟩
        · simp only [List.length_cons]
          omega
        · rcases m9 with h | h
          · exact Or.inl h
          · refine Or.inr ?_
            simp only [List.length_cons]
            omega

/-- The loop invariant instantiated at the entry point
`calculate_amortization`. -/
theorem engine_master (p rate mp : ℚ) (y : ℕ) :
    MasterOut p rate mp 0 (yearList y) (calculate_amortization p rate mp y) := by
  have h := runAux_master p rate mp (yearList y) 0 []
    rfl (by intro i hi; simp at hi) (by intro k hk hk2; omega)
  exact h

/-! ### Derived facts about the engine output -/

theorem map_eq_range_map {α β : Type} (l : List α) (f : α → β) (g : ℕ → β)
    (h : ∀ i (hi : i < l.length), f l[i] = g i) :
    l.map f = (List.range l.length).map g := by
  apply List.ext_getElem
  · simp
  · intro i h1 h2
    simp only [List.getElem_map, List.getElem_range]
    exact h i (by simpa using h1)

theorem schedule_map_interest (p rate mp : ℚ) (y : ℕ) :
    ((calculate_amortization p rate mp y).schedule.map (fun r => r.interest)).sum =
      Isum p rate mp (calculate_amortization p rate mp y).monthNum := by
  obtain ⟨m1, _, _, _, m5, _⟩ := engine_master p rate mp y
  rw [map_eq_range_map _ _ (periodInterest p rate mp) (fun i hi => (m5 i hi).2.1), m1]
  rfl

theorem schedule_map_principal (p rate mp : ℚ) (y : ℕ) :
    ((calculate_amortization p rate mp y).schedule.map (fun r => r.principal)).sum =
      Psum p rate mp (calculate_amortization p rate mp y).monthNum := by
  obtain ⟨m1, _, _, _, m5, _⟩ := engine_master p rate mp y
  rw [map_eq_range_map _ _ (periodPrincipal p rate mp) (fun i hi => (m5 i hi).2.2.1), m1]
  rfl

/-- The exact balance never goes below zero once it starts nonnegative:
the clamp zeroes it and an unclamped payment cannot overshoot. -/
theorem remAfter_nonneg (p rate mp : ℚ) (hp : 0 ≤ p) :
    ∀ k, 0 ≤ remAfter p rate mp k := by
  intro k
  induction k with
  | zero => exact hp
  | succ n ih =>
      rw [remAfter_succ]
      unfold stepPrincipal
      by_cases hc : round2 (mp - round2 (remAfter p rate mp n * rate)) >
          remAfter p rate mp n
      · rw [if_pos hc]
        simp
      · rw [if_neg hc]
        push_neg at hc
        linarith

/-- When the payment covers the rounded interest on the original
balance, the exact balance never rises and never exceeds `p`. -/
theorem remAfter_antitone (p rate mp : ℚ) (hp : 0 ≤ p) (hr : 0 ≤ rate)
    (hmp : round2 (p * rate) ≤ mp) :
    ∀ k, remAfter p rate mp k ≤ p ∧
      remAfter p rate mp (k + 1) ≤ remAfter p rate mp k := by
  have hstep : ∀ rem, 0 ≤ rem → rem ≤ p → rem - stepPrincipal rate mp rem ≤ rem := by
    intro rem h0 h1
    unfold stepPrincipal
    by_cases hc : round2 (mp - round2 (rem * rate)) > rem
    · rw [if_pos hc]
      linarith
    · rw [if_neg hc]
      have hint : round2 (rem * rate) ≤ round2 (p * rate) :=
        round2_mono (by nlinarith)
      have hpr : (0 : ℚ) ≤ round2 (mp - round2 (rem * rate)) := by
        have : (0 : ℚ) ≤ mp - round2 (rem * rate) := by linarith
        exact round2_nonneg this
      linarith
  intro k
  induction k with
  | zero =>
      refine ⟨le_refl p, ?_⟩
      rw [remAfter_succ]
      exact hstep p hp (le_refl p)
  | succ n ih =>
      obtain ⟨ih1, ih2⟩ := ih
      have h1 : remAfter p rate mp (n + 1) ≤ p := le_trans ih2 ih1
      refine ⟨h1, ?_⟩
      rw [remAfter_succ p rate mp (n + 1)]
      exact hstep _ (remAfter_nonneg p rate mp hp _) h1

/-- When the payment does not even cover the exact interest on the
original balance, each period's principal portion is nonpositive and the
exact balance never falls below `p`. -/
theorem remAfter_insufficient (p rate mp : ℚ) (hp : 0 < p) (hr : 0 ≤ rate)
    (hmp : mp < p * rate) :
    ∀ k, p ≤ remAfter p rate mp k ∧ periodPrincipal p rate mp k ≤ 0 ∧
      remAfter p rate mp k ≤ remAfter p rate mp (k + 1) := by
  have hstep : ∀ rem, p ≤ rem →
      stepPrincipal rate mp rem ≤ 0 ∧ rem ≤ rem - stepPrincipal rate mp rem := by
    intro rem h1
    have hint : p * rate - 1/200 ≤ round2 (rem * rate) := by
      have h2 : p * rate ≤ rem * rate := by nlinarith
      have h3 := round2_ge (rem * rate)
      linarith
    have hpr : round2 (mp - round2 (rem * rate)) ≤ 0 :=
      round2_nonpos (by linarith)
    have hnc : ¬ (round2 (mp - round2 (rem * rate)) > rem) := by
      push_neg
      linarith
    unfold stepPrincipal
    rw [if_neg hnc]
    exact ⟨hpr, by linarith⟩
  intro k
  induction k with
  | zero =>
      obtain ⟨h1, h2⟩ := hstep p (le_refl p)
      exact ⟨le_refl p, h1, by rw [remAfter_succ]; simpa using h2⟩
  | succ n ih =>
      obtain ⟨ih1, _, ih3⟩ := ih
      have h1 : p ≤ remAfter p rate mp (n + 1) := le_trans ih1 ih3
      obtain ⟨h2, h3⟩ := hstep _ h1
      exact ⟨h1, h2, by rw [remAfter_succ p rate mp (n + 1)]; simpa using h3⟩

/-- The clamp cannot fire on a period that is not the last one recorded:
firing zeroes the exact balance, which stops the loop. -/
theorem no_clamp_before_last (p rate mp : ℚ) (y : ℕ) (i : ℕ)
    (hi : i + 1 < (calculate_amortization p rate mp y).monthNum) :
    ¬ (round2 (mp - round2 (remAfter p rate mp i * rate)) > remAfter p rate mp i) := by
  obtain ⟨m1, m2, m3, m4, m5, m6, m7, m8, m9⟩ := engine_master p rate mp y
  intro hc
  have h0 : remAfter p rate mp (i + 1) = 0 := by
    rw [remAfter_succ]
    unfold stepPrincipal
    rw [if_pos hc]
    ring
  have hlt := m8 (i + 1) (by omega) hi
  rw [h0] at hlt
  exact lt_irrefl 0 hlt

/-! ### Claim theorems -/

/-- C1: in each period where the computed principal portion exceeds the
remaining balance, the principal is clamped to the balance and the cash
paid is `interest + principal`; in every other period the cash paid is
the fixed monthly payment, so every record except possibly the final one
has `payment = mp`. -/
theorem C1_payoff_clamp (p rate mp : ℚ) (y : ℕ) :
    (∀ i (hi : i + 1 < (calculate_amortization p rate mp y).schedule.length),
      (calculate_amortization p rate mp y).schedule[i].payment = mp) ∧
    (∀ i (hi : i < (calculate_amortization p rate mp y).schedule.length),
      (calculate_amortization p rate mp y).schedule[i].payment = mp ∨
        (calculate_amortization p rate mp y).schedule[i].payment =
          (calculate_amortization p rate mp y).schedule[i].interest +
            (calculate_amortization p rate mp y).schedule[i].principal) := by
  obtain ⟨m1, m2, m3, m4, m5, m6, m7, m8, m9⟩ := engine_master p rate mp y
  constructor
  · intro i hi
    have hsp := m5 i (by omega)
    have hnc := no_clamp_before_last p rate mp y i (by omega)
    rw [hsp.2.2.2.1]
    unfold periodPayment stepPayment
    rw [if_neg hnc]
  · intro i hi
    have hsp := m5 i hi
    rw [hsp.2.2.2.1, hsp.2.1, hsp.2.2.1]
    unfold periodPayment stepPayment periodPrincipal stepPrincipal periodInterest
    by_cases hc : round2 (mp - round2 (remAfter p rate mp i * rate)) >
        remAfter p rate mp i
    · rw [if_pos hc, if_pos hc]
      exact Or.inr rfl
    · rw [if_neg hc]
      exact Or.inl rfl

theorem C1_payoff_clamp_witness :
    ((calculate_amortization 1000 0 100 1).schedule.get ⟨0, by decide⟩).payment = 100 :=
  (C1_payoff_clamp 1000 0 100 1).1 0 (by decide)

/-- C2: the loop stops at the first period whose update makes the exact
remaining balance nonpositive, returning the records produced so far and
the current period index; if no such period occurs it runs all
`maxYears * 12` periods. -/
theorem C2_early_termination (p rate mp : ℚ) (y : ℕ) :
    (calculate_amortization p rate mp y).monthNum =
      (calculate_amortization p rate mp y).schedule.length ∧
    (calculate_amortization p rate mp y).monthNum ≤ 12 * y ∧
    (∀ k, 0 < k → k < (calculate_amortization p rate mp y).monthNum →
      0 < remAfter p rate mp k) ∧
    (remAfter p rate mp (calculate_amortization p rate mp y).monthNum ≤ 0 ∨
      (calculate_amortization p rate mp y).monthNum = 12 * y) := by
  obtain ⟨m1, m2, m3, m4, m5, m6, m7, m8, m9⟩ := engine_master p rate mp y
  refine ⟨m1.symm, ?_, m8, ?_⟩
  · have h := m3
    rwa [yearList_length, Nat.zero_add] at h
  · rcases m9 with h | h
    · exact Or.inl h
    · refine Or.inr ?_
      rw [h, yearList_length]
      omega

theorem C2_early_termination_witness :
    0 < remAfter 1000 0 100 5 ∧ (calculate_amortization 1000 0 100 1).monthNum ≤ 12 * 1 :=
  ⟨(C2_early_termination 1000 0 100 1).2.2.1 5 (by decide) (by decide),
    (C2_early_termination 1000 0 100 1).2.1⟩

/-- C9: for `maxYears ≥ 1` the schedule is non-empty, its `Month` fields
are the contiguous sequence `1..N`, and the returned period count equals
the number of records. -/
theorem C9_contiguous_periods (p rate mp : ℚ) (y : ℕ) (hy : 1 ≤ y) :
    (calculate_amortization p rate mp y).schedule ≠ [] ∧
    (∀ i (hi : i < (calculate_amortization p rate mp y).schedule.length),
      (calculate_amortization p rate mp y).schedule[i].month = i + 1) ∧
    (calculate_amortization p rate mp y).monthNum =
      (calculate_amortization p rate mp y).schedule.length := by
  obtain ⟨m1, m2, m3, m4, m5, m6, m7, m8, m9⟩ := engine_master p rate mp y
  have hne : yearList y ≠ [] := by
    intro hcon
    have hl := yearList_length y
    rw [hcon] at hl
    simp at hl
    omega
  have hpos := m4 hne
  refine ⟨?_, fun i hi => (m5 i hi).1, m1.symm⟩
  intro hcon
  rw [hcon] at m1
  simp at m1
  omega

theorem C9_contiguous_periods_witness :
    (calculate_amortization 1 0 1 1).schedule ≠ [] ∧
    (calculate_amortization 1 0 1 1).monthNum =
      (calculate_amortization 1 0 1 1).schedule.length :=
  ⟨(C9_contiguous_periods 1 0 1 1 (le_refl 1)).1,
    (C9_contiguous_periods 1 0 1 1 (le_refl 1)).2.2⟩

/-- C4: each period's interest is `round2` of balance times rate and its
principal is `round2 (mp - interest)` (unless clamped) at the point of
computation, and the returned totals are running sums of these
already-rounded per-period values. -/
theorem C4_round_then_accumulate (p rate mp : ℚ) (y : ℕ) :
    (calculate_amortization p rate mp y).totalInterest =
      ((calculate_amortization p rate mp y).schedule.map (fun r => r.interest)).sum ∧
    (calculate_amortization p rate mp y).totalPrincipal =
      ((calculate_amortization p rate mp y).schedule.map (fun r => r.principal)).sum ∧
    (∀ i (hi : i < (calculate_amortization p rate mp y).schedule.length),
      (calculate_amortization p rate mp y).schedule[i].interest =
        round2 (remAfter p rate mp i * rate) ∧
      (calculate_amortization p rate mp y).schedule[i].principal =
        (if round2 (mp - round2 (remAfter p rate mp i * rate)) > remAfter p rate mp i
          then remAfter p rate mp i
          else round2 (mp - round2 (remAfter p rate mp i * rate)))) := by
  obtain ⟨m1, m2, m3, m4, m5, m6, m7, m8, m9⟩ := engine_master p rate mp y
  refine ⟨?_, ?_, ?_⟩
  · rw [schedule_map_interest]
    exact m6
  · rw [schedule_map_principal]
    exact m7
  · intro i hi
    exact ⟨(m5 i hi).2.1, (m5 i hi).2.2.1⟩

theorem C4_round_then_accumulate_witness :
    ((calculate_amortization 1000 0 100 1).schedule.get ⟨0, by decide⟩).interest =
      round2 (remAfter 1000 0 100 0 * 0) :=
  ((C4_round_then_accumulate 1000 0 100 1).2.2 0 (by decide)).1

/-- C10: each stored record snapshots the running balance and the running
totals rounded to cents at emission time, while the returned totals are
the exact (un-re-rounded) running sums of the already-rounded per-period
amounts. -/
theorem C10_snapshot_vs_returned (p rate mp : ℚ) (y : ℕ) :
    (∀ i (hi : i < (calculate_amortization p rate mp y).schedule.length),
      (calculate_amortization p rate mp y).schedule[i].remainingBalance =
        round2 (remAfter p rate mp (i + 1)) ∧
      (calculate_amortization p rate mp y).schedule[i].totalInterest =
        round2 (Isum p rate mp (i + 1)) ∧
      (calculate_amortization p rate mp y).schedule[i].totalPrincipal =
        round2 (Psum p rate mp (i + 1))) ∧
    (calculate_amortization p rate mp y).totalInterest =
      Isum p rate mp (calculate_amortization p rate mp y).monthNum ∧
    (calculate_amortization p rate mp y).totalPrincipal =
      Psum p rate mp (calculate_amortization p rate mp y).monthNum := by
  obtain ⟨m1, m2, m3, m4, m5, m6, m7, m8, m9⟩ := engine_master p rate mp y
  exact ⟨fun i hi => ⟨(m5 i hi).2.2.2.2.1, (m5 i hi).2.2.2.2.2⟩, m6, m7⟩

theorem C10_snapshot_vs_returned_witness :
    ((calculate_amortization 1000 0 100 1).schedule.get ⟨0, by decide⟩).remainingBalance =
      round2 (remAfter 1000 0 100 1) :=
  ((C10_snapshot_vs_returned 1000 0 100 1).1 0 (by decide)).1

/-- C6: the principal amounts sum to exactly the drop in the exact
balance, and agree with `principal − finalRecord.remainingBalance` within
the stated tolerance of `0.01` per period. -/
theorem C6_principal_telescoping (p rate mp : ℚ) (y : ℕ) (r : PaymentRecord)
    (hr : (calculate_amortization p rate mp y).schedule.getLast? = some r) :
    ((calculate_amortization p rate mp y).schedule.map (fun x => x.principal)).sum =
      p - remAfter p rate mp (calculate_amortization p rate mp y).monthNum ∧
    |(p - r.remainingBalance) -
        ((calculate_amortization p rate mp y).schedule.map (fun x => x.principal)).sum| ≤
      ((calculate_amortization p rate mp y).schedule.length : ℚ) * (1 / 100) := by
  obtain ⟨m1, m2, m3, m4, m5, m6, m7, m8, m9⟩ := engine_master p rate mp y
  have hsum : ((calculate_amortization p rate mp y).schedule.map
      (fun x => x.principal)).sum =
      p - remAfter p rate mp (calculate_amortization p rate mp y).monthNum := by
    rw [schedule_map_principal, Psum_eq_sub_remAfter]
  refine ⟨hsum, ?_⟩
  have hne : (calculate_amortization p rate mp y).schedule ≠ [] := by
    intro hcon
    rw [hcon] at hr
    simp at hr
  have hlen : 0 < (calculate_amortization p rate mp y).schedule.length :=
    List.length_pos.mpr hne
  have hidx : (calculate_amortization p rate mp y).schedule.length - 1 <
      (calculate_amortization p rate mp y).schedule.length := by omega
  have hget : (calculate_amortization p rate mp y).schedule.getLast? =
      some ((calculate_amortization p rate mp y).schedule[
        (calculate_amortization p rate mp y).schedule.length - 1]) := by
    rw [List.getLast?_eq_getElem?, List.getElem?_eq_getElem hidx]
  rw [hget] at hr
  have hreq : r = (calculate_amortization p rate mp y).schedule[
      (calculate_amortization p rate mp y).schedule.length - 1] :=
    (Option.some.inj hr).symm
  have hrb : r.remainingBalance = round2 (remAfter p rate mp
      ((calculate_amortization p rate mp y).schedule.length - 1 + 1)) := by
    rw [hreq]
    exact (m5 _ hidx).2.2.2.2.1
  have hN : (calculate_amortization p rate mp y).schedule.length - 1 + 1 =
      (calculate_amortization p rate mp y).schedule.length := by omega
  rw [hN, m1] at hrb
  rw [hsum, hrb]
  have habs := abs_round2_sub
    (remAfter p rate mp (calculate_amortization p rate mp y).monthNum)
  rw [abs_le] at habs
  have h1 : (1 : ℚ) ≤ ((calculate_amortization p rate mp y).schedule.length : ℚ) := by
    exact_mod_cast hlen
  rw [abs_le]
  constructor <;> · obtain ⟨ha, hb⟩ := habs; nlinarith

theorem C6_principal_telescoping_witness :
    ((calculate_amortization 1000 0 100 1).schedule.map (fun x => x.principal)).sum =
      1000 - remAfter 1000 0 100 (calculate_amortization 1000 0 100 1).monthNum :=
  (C6_principal_telescoping 1000 0 100 1 ⟨10, 1, 100, 0, 100, 0, 0, 1000⟩ (by decide)).1

/-- C3 as stated is false: with a payment below the running interest the
stored balance grows between the first and second records, on an input
satisfying every stated precondition (`p = 100 > 0`, `rate = 1 ≥ 0`,
`mp = 1 > 0`, `maxYears = 1 ≥ 1`). -/
theorem C3_counterexample :
    0 < (100 : ℚ) ∧ 0 ≤ (1 : ℚ) ∧ 0 < (1 : ℚ) ∧ (1 : ℕ) ≤ 1 ∧
    ¬ (((calculate_amortization 100 1 1 1).schedule.get ⟨1, by decide⟩).remainingBalance ≤
        ((calculate_amortization 100 1 1 1).schedule.get ⟨0, by decide⟩).remainingBalance) := by
  decide

/-- C3 amended: under the stated preconditions the stored balance is
never negative; it is monotonically non-increasing under the additional
hypothesis that the monthly payment covers the rounded first-period
interest. -/
theorem C3_balance_invariants (p rate mp : ℚ) (y : ℕ)
    (hp : 0 < p) (hr : 0 ≤ rate) (hm : 0 < mp) (hy : 1 ≤ y) :
    (∀ i (hi : i < (calculate_amortization p rate mp y).schedule.length),
      0 ≤ (calculate_amortization p rate mp y).schedule[i].remainingBalance) ∧
    (round2 (p * rate) ≤ mp →
      ∀ i (hi : i + 1 < (calculate_amortization p rate mp y).schedule.length),
        (calculate_amortization p rate mp y).schedule[i + 1].remainingBalance ≤
          (calculate_amortization p rate mp y).schedule[i].remainingBalance) := by
  obtain ⟨m1, m2, m3, m4, m5, m6, m7, m8, m9⟩ := engine_master p rate mp y
  constructor
  · intro i hi
    rw [(m5 i hi).2.2.2.2.1]
    exact round2_nonneg (remAfter_nonneg p rate mp (le_of_lt hp) (i + 1))
  · intro hmp i hi
    rw [(m5 (i + 1) hi).2.2.2.2.1, (m5 i (by omega)).2.2.2.2.1]
    exact round2_mono (remAfter_antitone p rate mp (le_of_lt hp) hr hmp (i + 1)).2

theorem C3_balance_invariants_witness :
    0 ≤ ((calculate_amortization 1000 0 100 1).schedule.get ⟨0, by decide⟩).remainingBalance :=
  (C3_balance_invariants 1000 0 100 1 (by decide) (by decide) (by decide)
    (le_refl 1)).1 0 (by decide)

/-- C7 as stated is false: with `mp = 0.999` and first-period interest
`round2 (100 * 0.01) = 1` the payment is insufficient, yet the computed
principal is `round2 (-0.001) = 0` — not negative — and the balance stays
constant between the first two records rather than growing. -/
theorem C7_counterexample :
    (999/1000 : ℚ) < 100 * (1/100) ∧
    ((calculate_amortization 100 (1/100) (999/1000) 1).schedule.get
      ⟨0, by decide⟩).principal = 0 ∧
    ((calculate_amortization 100 (1/100) (999/1000) 1).schedule.get
      ⟨0, by decide⟩).remainingBalance =
      ((calculate_amortization 100 (1/100) (999/1000) 1).schedule.get
        ⟨1, by decide⟩).remainingBalance := by
  decide

/-- C7 amended: when the payment does not cover the first period's exact
interest the engine neither raises nor special-cases; every period's
principal is nonpositive (zero when the shortfall is within half a
cent), the stored balance never decreases, and the loop runs all
`maxYears * 12` periods. -/
theorem C7_insufficient_payment (p rate mp : ℚ) (y : ℕ)
    (hp : 0 < p) (hr : 0 ≤ rate) (hm : mp < p * rate) :
    (calculate_amortization p rate mp y).schedule.length = 12 * y ∧
    (calculate_amortization p rate mp y).monthNum = 12 * y ∧
    (∀ i (hi : i < (calculate_amortization p rate mp y).schedule.length),
      (calculate_amortization p rate mp y).schedule[i].principal ≤ 0) ∧
    (∀ i (hi : i + 1 < (calculate_amortization p rate mp y).schedule.length),
      (calculate_amortization p rate mp y).schedule[i].remainingBalance ≤
        (calculate_amortization p rate mp y).schedule[i + 1].remainingBalance) := by
  obtain ⟨m1, m2, m3, m4, m5, m6, m7, m8, m9⟩ := engine_master p rate mp y
  have hseq := remAfter_insufficient p rate mp hp hr hm
  have hN : (calculate_amortization p rate mp y).monthNum = 12 * y := by
    rcases m9 with h | h
    · exfalso
      have h1 := (hseq (calculate_amortization p rate mp y).monthNum).1
      linarith
    · rw [h, yearList_length]
      omega
  refine ⟨by rw [m1, hN], hN, ?_, ?_⟩
  · intro i hi
    rw [(m5 i hi).2.2.1]
    exact (hseq i).2.1
  · intro i hi
    rw [(m5 (i + 1) hi).2.2.2.2.1, (m5 i (by omega)).2.2.2.2.1]
    exact round2_mono (hseq (i + 1)).2.2

theorem C7_insufficient_payment_witness :
    (calculate_amortization 100 (1/100) (999/1000) 1).schedule.length = 12 * 1 :=
  (C7_insufficient_payment 100 (1/100) (999/1000) 1 (by decide) (by decide)
    (by decide)).1

/-- C8 as stated is false: with `rate = 0` and `mp = 0.001` (all stated
preconditions hold) the first of twelve records has
`principal = round2 0.001 = 0 ≠ mp`. -/
theorem C8_counterexample :
    0 < (1 : ℚ) ∧ 0 < (1/1000 : ℚ) ∧ (1 : ℕ) ≤ 1 ∧
    (calculate_amortization 1 0 (1/1000) 1).schedule.length = 12 ∧
    ((calculate_amortization 1 0 (1/1000) 1).schedule.get ⟨0, by decide⟩).interest = 0 ∧
    ((calculate_amortization 1 0 (1/1000) 1).schedule.get ⟨0, by decide⟩).principal ≠
      (1/1000 : ℚ) := by
  decide

/-- C8 amended: with `rate = 0` every record's interest is `0` and every
record's principal is `round2 mp` except possibly the last, which may
instead be clamped to the remaining balance. -/
theorem C8_zero_rate (p mp : ℚ) (y : ℕ) :
    (∀ i (hi : i < (calculate_amortization p 0 mp y).schedule.length),
      (calculate_amortization p 0 mp y).schedule[i].interest = 0) ∧
    (∀ i (hi : i + 1 < (calculate_amortization p 0 mp y).schedule.length),
      (calculate_amortization p 0 mp y).schedule[i].principal = round2 mp) ∧
    (∀ i (hi : i < (calculate_amortization p 0 mp y).schedule.length),
      (calculate_amortization p 0 mp y).schedule[i].principal = round2 mp ∨
        (calculate_amortization p 0 mp y).schedule[i].principal = remAfter p 0 mp i) := by
  obtain ⟨m1, m2, m3, m4, m5, m6, m7, m8, m9⟩ := engine_master p 0 mp y
  refine ⟨?_, ?_, ?_⟩
  · intro i hi
    rw [(m5 i hi).2.1]
    unfold periodInterest
    rw [mul_zero, round2_zero]
  · intro i hi
    have hnc := no_clamp_before_last p 0 mp y i (by omega)
    rw [(m5 i (by omega)).2.2.1]
    unfold periodPrincipal stepPrincipal
    rw [if_neg hnc, mul_zero, round2_zero, sub_zero]
  · intro i hi
    rw [(m5 i hi).2.2.1]
    unfold periodPrincipal stepPrincipal
    by_cases hc : round2 (mp - round2 (remAfter p 0 mp i * 0)) > remAfter p 0 mp i
    · rw [if_pos hc]
      exact Or.inr rfl
    · rw [if_neg hc]
      refine Or.inl ?_
      rw [mul_zero, round2_zero, sub_zero]

theorem C8_zero_rate_witness :
    ((calculate_amortization 1000 0 100 1).schedule.get ⟨0, by decide⟩).interest = 0 :=
  (C8_zero_rate 1000 100 1).1 0 (by decide)

/-- C5 as stated is false: on `principal = -1` (violating
`principal > 0`) the engine does not fail before producing a schedule; it
runs the loop and returns a record. -/
theorem C5_counterexample :
    ((-1 : ℚ) ≤ 0) ∧ (calculate_amortization (-1) 0 1 1).schedule ≠ [] := by
  decide

/-- C5 amended: the engine performs no parameter validation and has no
failure path at all: for any inputs (valid or not) with `maxYears ≥ 1`
it returns a non-empty schedule, and for `maxYears ≤ 0` it returns the
empty result — it never signals an error. -/
theorem C5_no_validation (p rate mp : ℚ) (y : ℕ) (hy : 1 ≤ y) :
    (calculate_amortization p rate mp y).schedule ≠ [] ∧
    calculate_amortization p rate mp 0 = ⟨[], 0, 0, 0⟩ := by
  obtain ⟨m1, m2, m3, m4, m5, m6, m7, m8, m9⟩ := engine_master p rate mp y
  constructor
  · have hne : yearList y ≠ [] := by
      intro hcon
      have hl := yearList_length y
      rw [hcon] at hl
      simp at hl
      omega
    have hpos := m4 hne
    intro hcon
    rw [hcon] at m1
    simp at m1
    omega
  · rfl

theorem C5_no_validation_witness :
    (calculate_amortization (-5) (-1) 0 1).schedule ≠ [] ∧
    calculate_amortization (-5) (-1) 0 0 = ⟨[], 0, 0, 0⟩ :=
  C5_no_validation (-5) (-1) 0 1 (le_refl 1)

end LoanCalculator
